import Mathlib

/-!
Verification of the Mails-Summariser repository
(`elite_ai_ml_bckend/alternative_summarizations.py`) against its
natural-language specification.

The repository source is a comparison script: `sumySummarize` parses a text
file and runs six sumy summarizers, `gensimSummarize` / `pyteasSummarize` /
`pytrankSummarize` wrap other libraries, `createJSON` rewrites a text file
as JSON, and the `__main__` block dispatches on a menu choice.  The
summarization algorithms themselves (Luhn, SumBasic, KL, LSA, graph
ranking) live in the external `sumy` library, so they are modelled here
from the specification's §4 descriptions; the file-level functions are
shallow embeddings of the Python source, with the filesystem passed
explicitly and external library callables taken as function parameters.
-/

namespace MailsSummariser

/-- A token of a sentence: surface form, stemmed form, stopword flag
(spec §3, resolved once at tokenization time). -/
structure Token where
  surface : String
  stem : String
  stopword : Bool
deriving DecidableEq, Repr

/-- A sentence: original surface text, 0-based position index, tokens
(spec §3). -/
structure Sentence where
  text : String
  position : Nat
  tokens : List Token
deriving DecidableEq, Repr

/-- A document is an ordered sequence of sentences (spec §3). -/
abbrev Document := List Sentence

/-- The stems of the non-stopword tokens of a sentence, in order. -/
def contentStems (s : Sentence) : List String :=
  (s.tokens.filter (fun t => !t.stopword)).map Token.stem

/-- All non-stopword stems of the document, in document order. -/
def termSeq (doc : Document) : List String :=
  (doc.map contentStems).flatten

/-- Distinct-elements helper: keeps elements not yet seen. -/
def firstOccurrencesAux : List String → List String → List String
  | [], _ => []
  | a :: rest, seen =>
    if a ∈ seen then firstOccurrencesAux rest seen
    else a :: firstOccurrencesAux rest (a :: seen)

/-- Distinct elements of a list, keeping the first occurrence of each
(used for the spec's first-occurrence tie-break and distinct-word sets). -/
def firstOccurrences (l : List String) : List String :=
  firstOccurrencesAux l []

/-- A document is well positioned when every sentence's `position` field is
its index in the document (spec §3: "position index (0-based, stable)"). -/
def wellPositioned (doc : Document) : Prop :=
  ∀ i : Nat, ∀ h : i < doc.length, (doc.get ⟨i, h⟩).position = i

instance (doc : Document) : Decidable (wellPositioned doc) :=
  Nat.decidableBallLT doc.length _

/-- Sort order used by the SentenceSelector (spec §4.5): score descending,
ties broken by ascending original position. -/
def scoreRel (score : Sentence → ℚ) (a b : Sentence) : Prop :=
  score b < score a ∨ (score a = score b ∧ a.position ≤ b.position)

instance (score : Sentence → ℚ) : DecidableRel (scoreRel score) := fun _ _ =>
  inferInstanceAs (Decidable (_ ∨ _))

/-- Comparison of sentences by original position. -/
def posLe (a b : Sentence) : Prop := a.position ≤ b.position

instance : DecidableRel posLe := fun _ _ => inferInstanceAs (Decidable (_ ≤ _))

instance : IsTotal Sentence posLe := ⟨fun a b => Nat.le_total a.position b.position⟩

instance : IsTrans Sentence posLe := ⟨fun _ _ _ h1 h2 => Nat.le_trans h1 h2⟩

instance (score : Sentence → ℚ) : IsTotal Sentence (scoreRel score) := by
  constructor
  intro a b
  rcases lt_trichotomy (score a) (score b) with h | h | h
  · exact Or.inr (Or.inl h)
  · rcases Nat.le_total a.position b.position with hp | hp
    · exact Or.inl (Or.inr ⟨h, hp⟩)
    · exact Or.inr (Or.inr ⟨h.symm, hp⟩)
  · exact Or.inl (Or.inl h)

instance (score : Sentence → ℚ) : IsTrans Sentence (scoreRel score) := by
  constructor
  intro a b c hab hbc
  rcases hab with h1 | ⟨h1, hp1⟩
  · rcases hbc with h2 | ⟨h2, _⟩
    · exact Or.inl (h2.trans h1)
    · exact Or.inl (h2 ▸ h1)
  · rcases hbc with h2 | ⟨h2, hp2⟩
    · exact Or.inl (h1 ▸ h2)
    · exact Or.inr ⟨h1.trans h2, hp1.trans hp2⟩

/-- Re-sort a selection of sentences into original document order
(spec §4.5: "the selector's role reduces to re-sorting the chosen set into
original document order for output"). -/
def sortByPos (l : List Sentence) : List Sentence :=
  List.insertionSort posLe l

/-- The SentenceSelector (spec §4.5): sort by score descending with ties
broken by ascending position, take the first `k`, and return them in
original document order. -/
def selectTopK (score : Sentence → ℚ) (doc : Document) (k : Nat) : List Sentence :=
  sortByPos ((List.insertionSort (scoreRel score) doc).take k)

/-- Positions of a well positioned document are exactly `range`. -/
theorem map_position_wellPositioned {doc : Document} (h : wellPositioned doc) :
    doc.map Sentence.position = List.range doc.length := by
  apply List.ext_getElem
  · simp
  · intro i h1 h2
    simp only [List.getElem_map, List.getElem_range]
    exact h i (by simpa using h1)

/-- In a well positioned document the position map has no duplicates. -/
theorem nodup_position_wellPositioned {doc : Document} (h : wellPositioned doc) :
    (doc.map Sentence.position).Nodup := by
  rw [map_position_wellPositioned h]
  exact List.nodup_range _

/-- A well positioned document is sorted by position. -/
theorem sorted_posLe_wellPositioned {doc : Document} (h : wellPositioned doc) :
    List.Sorted posLe doc := by
  have hpair : List.Pairwise (· < ·) (doc.map Sentence.position) := by
    rw [map_position_wellPositioned h]
    exact List.pairwise_lt_range _
  rw [List.pairwise_map] at hpair
  exact hpair.imp (fun hab => Nat.le_of_lt hab)

/-- Strict position order, with equality escape. This relation is
antisymmetric, which lets us identify two sorted permutations. -/
def posLtEq (a b : Sentence) : Prop := a.position < b.position ∨ a = b

instance : IsAntisymm Sentence posLtEq := by
  constructor
  intro a b hab hba
  rcases hab with h1 | h1
  · rcases hba with h2 | h2
    · exact absurd h2 (Nat.lt_asymm h1)
    · exact h2.symm
  · exact h1

/-- A list sorted by position whose positions are distinct is sorted by the
antisymmetric relation `posLtEq`. -/
theorem sorted_posLtEq_of_sorted_nodup {l : List Sentence}
    (hs : List.Sorted posLe l) (hn : (l.map Sentence.position).Nodup) :
    List.Sorted posLtEq l := by
  have hinj := List.inj_on_of_nodup_map hn
  rw [List.Sorted, List.pairwise_iff_get] at hs ⊢
  intro i j hij
  have hle := hs i j hij
  by_cases heq : (l.get i).position = (l.get j).position
  · exact Or.inr (hinj (l.get_mem _ _) (l.get_mem _ _) heq)
  · exact Or.inl (Nat.lt_of_le_of_ne hle heq)

/-- Sorting a permutation of a well positioned document by position
recovers the document itself. -/
theorem sortByPos_eq_of_perm {l : List Sentence} {doc : Document}
    (hp : l.Perm doc) (hw : wellPositioned doc) : sortByPos l = doc := by
  have hperm : (sortByPos l).Perm doc := (List.perm_insertionSort posLe l).trans hp
  have hnodoc := nodup_position_wellPositioned hw
  have hnl : ((sortByPos l).map Sentence.position).Nodup :=
    ((hperm.map Sentence.position).nodup_iff).2 hnodoc
  have hs1 : List.Sorted posLtEq (sortByPos l) :=
    sorted_posLtEq_of_sorted_nodup (List.sorted_insertionSort posLe l) hnl
  have hs2 : List.Sorted posLtEq doc :=
    sorted_posLtEq_of_sorted_nodup (sorted_posLe_wellPositioned hw) hnodoc
  exact List.eq_of_perm_of_sorted hperm hs1 hs2

/-- Selecting at least as many sentences as the document has returns the
whole document in original order, for any score function. -/
theorem selectTopK_eq_all (score : Sentence → ℚ) {doc : Document} {k : Nat}
    (hw : wellPositioned doc) (hk : doc.length ≤ k) :
    selectTopK score doc k = doc := by
  unfold selectTopK
  rw [List.take_of_length_le]
  · exact sortByPos_eq_of_perm (List.perm_insertionSort _ doc) hw
  · rw [List.length_insertionSort]
    exact hk

/-- Membership in the selector output is membership in the first `k`
sentences of the score-sorted list. -/
theorem mem_selectTopK_iff {score : Sentence → ℚ} {doc : Document} {k : Nat}
    {s : Sentence} :
    s ∈ selectTopK score doc k ↔
      s ∈ (List.insertionSort (scoreRel score) doc).take k :=
  (List.perm_insertionSort posLe _).mem_iff

/-- If a zero-scored sentence is selected by the top-k selector over
nonnegative scores, then k exceeds the number of sentences with nonzero
score. -/
theorem countP_lt_of_selected_zero (score : Sentence → ℚ) {doc : Document}
    {k : Nat} {s : Sentence} (hnn : ∀ x ∈ doc, 0 ≤ score x)
    (hs : s ∈ selectTopK score doc k) (h0 : score s = 0) :
    doc.countP (fun x => decide (score x ≠ 0)) < k := by
  rw [mem_selectTopK_iff] at hs
  set L := List.insertionSort (scoreRel score) doc with hL
  have hsort : List.Sorted (scoreRel score) L := List.sorted_insertionSort _ doc
  have hpermL : L.Perm doc := List.perm_insertionSort _ doc
  obtain ⟨i, hi, hgi⟩ := List.getElem_of_mem hs
  have hik : i < k := by
    have := hi
    rw [List.length_take] at this
    exact lt_of_lt_of_le this (min_le_left _ _)
  have hiL : i < L.length := by
    have := hi
    rw [List.length_take] at this
    exact lt_of_lt_of_le this (min_le_right _ _)
  have hgetL : L[i] = s := by
    rw [← hgi]
    exact (List.getElem_take _).symm
  have hdrop0 : (L.drop i).countP (fun x => decide (score x ≠ 0)) = 0 := by
    rw [List.countP_eq_zero]
    intro a ha
    obtain ⟨j, hj, hja⟩ := List.getElem_of_mem ha
    have hjL : i + j < L.length := by
      have := hj
      rw [List.length_drop] at this
      omega
    have haL : a = L[i + j] := by
      rw [← hja]
      exact (List.getElem_drop _)
    have hale : score a ≤ 0 := by
      rcases Nat.eq_or_lt_of_le (Nat.le_add_right i j) with hij | hij
      · have hceq : L[i + j] = s := by
          rw [← hgetL]
          congr 1
          omega
        rw [haL, hceq, h0]
      · have hrel := (List.pairwise_iff_get.1 hsort) ⟨i, hiL⟩ ⟨i + j, hjL⟩ hij
        rw [List.get_eq_getElem, List.get_eq_getElem, hgetL] at hrel
        rcases hrel with hlt | ⟨heq, _⟩
        · rw [haL]
          exact le_of_lt (h0 ▸ hlt)
        · rw [haL, ← heq, h0]
    have hage : 0 ≤ score a := hnn a (hpermL.subset (List.mem_of_mem_drop ha))
    simp [le_antisymm hale hage]
  have hcount : doc.countP (fun x => decide (score x ≠ 0)) =
      (L.take i).countP (fun x => decide (score x ≠ 0)) +
        (L.drop i).countP (fun x => decide (score x ≠ 0)) := by
    rw [← List.countP_append, List.take_append_drop]
    exact (hpermL.countP_eq _).symm
  rw [hdrop0, Nat.add_zero] at hcount
  rw [hcount]
  calc (L.take i).countP (fun x => decide (score x ≠ 0))
      ≤ (L.take i).length := List.countP_le_length _
    _ ≤ i := by rw [List.length_take]; exact min_le_left _ _
    _ < k := hik


/-! ### Luhn scoring (spec §4.2), modelled from the spec -/

/-- Configured top-word count for Luhn (spec §6: `top_word_count` default 100). -/
def luhnTopWordCount : Nat := 100

/-- Configured cluster gap for Luhn (spec §6: `luhn_cluster_gap` default 4). -/
def luhnClusterGap : Nat := 4

/-- Global term frequency over the non-stopword stems (spec §4.2,
FrequencyModel). -/
def tf (doc : Document) (t : String) : Nat := (termSeq doc).count t

/-- Modelled from the spec: `topWords(n)` of the FrequencyModel, "the n most
frequent terms, ties broken by first document occurrence order" (spec §4.2);
the sumy implementation is external to the repository.  The stable insertion
sort over the first-occurrence list realizes the tie-break. -/
def topWords (doc : Document) (n : Nat) : List String :=
  (List.insertionSort (fun a b => tf doc b ≤ tf doc a)
    (firstOccurrences (termSeq doc))).take n

/-- Positions (token indices) of top-word occurrences inside a token list,
starting at index `i`. -/
def sigPositions (tops : List String) : List Token → Nat → List Nat
  | [], _ => []
  | t :: rest, i =>
    if t.stopword = false ∧ t.stem ∈ tops then i :: sigPositions tops rest (i + 1)
    else sigPositions tops rest (i + 1)

/-- Clustering helper: `cur` is the current cluster (reversed), `prev` the
last significant position seen.  A cluster ends when the gap between
consecutive significant positions exceeds `gap` (spec §4.2). -/
def clustersAux (gap : Nat) : List Nat → Nat → List Nat → List (List Nat)
  | cur, _, [] => [cur.reverse]
  | cur, prev, p :: rest =>
    if p - prev > gap then cur.reverse :: clustersAux gap [p] p rest
    else clustersAux gap (p :: cur) p rest

/-- Modelled from the spec: clusters of significant-word positions
(spec §4.2, Luhn scoring); the sumy implementation is external. -/
def clusters (gap : Nat) : List Nat → List (List Nat)
  | [] => []
  | p :: rest => clustersAux gap [p] p rest

/-- Score of one cluster: (count of top words in the cluster)² divided by
the cluster span length (spec §4.2). -/
def clusterScore (c : List Nat) : ℚ :=
  ((c.length : ℚ) ^ 2) / (((c.getLastD 0 - c.headD 0 + 1 : Nat) : ℚ))

/-- Modelled from the spec: Luhn sentence score, the score of the best
contiguous cluster of top-word positions; sentences with no top words
score 0 (spec §4.2). -/
def luhnScore (tops : List String) (s : Sentence) : ℚ :=
  ((clusters luhnClusterGap (sigPositions tops s.tokens 0)).map clusterScore).foldr max 0

/-- Modelled from the spec: the Luhn strategy combined with the
SentenceSelector (spec §4.2, §4.5). -/
def luhnSummarize (doc : Document) (k : Nat) : List Sentence :=
  selectTopK (luhnScore (topWords doc luhnTopWordCount)) doc k

/-- A sentence containing zero top words: every token is a stopword or its
stem is not among the top words. -/
def hasNoTopWord (tops : List String) (s : Sentence) : Prop :=
  ∀ t ∈ s.tokens, t.stopword = true ∨ t.stem ∉ tops

instance (tops : List String) (s : Sentence) : Decidable (hasNoTopWord tops s) :=
  inferInstanceAs (Decidable (∀ t ∈ s.tokens, _ ∨ _))

/-- A sentence with no top words yields no significant positions. -/
theorem sigPositions_eq_nil (tops : List String) (toks : List Token)
    (h : ∀ t ∈ toks, t.stopword = true ∨ t.stem ∉ tops) :
    ∀ i, sigPositions tops toks i = [] := by
  induction toks with
  | nil => intro i; rfl
  | cons t rest ih =>
    intro i
    have ht := h t (List.mem_cons_self t rest)
    have hrest : ∀ x ∈ rest, x.stopword = true ∨ x.stem ∉ tops :=
      fun x hx => h x (List.mem_cons_of_mem t hx)
    rw [sigPositions, if_neg, ih hrest]
    rintro ⟨hstop, hmem⟩
    rcases ht with h1 | h1
    · rw [h1] at hstop
      exact Bool.true_eq_false.mp hstop
    · exact h1 hmem

/-- A sentence containing zero top words scores 0 under Luhn scoring. -/
theorem luhnScore_eq_zero {tops : List String} {s : Sentence}
    (h : hasNoTopWord tops s) : luhnScore tops s = 0 := by
  unfold luhnScore
  rw [sigPositions_eq_nil tops s.tokens h 0]
  rfl

/-- Cluster scores are nonnegative. -/
theorem clusterScore_nonneg (c : List Nat) : 0 ≤ clusterScore c := by
  unfold clusterScore
  apply div_nonneg
  · positivity
  · positivity

/-- Luhn scores are nonnegative. -/
theorem luhnScore_nonneg (tops : List String) (s : Sentence) :
    0 ≤ luhnScore tops s := by
  unfold luhnScore
  generalize (clusters luhnClusterGap (sigPositions tops s.tokens 0)).map clusterScore = l
  induction l with
  | nil => exact le_refl 0
  | cons a t ih => exact le_trans ih (le_max_right a _)

/-- C7: under Luhn scoring, every sentence containing zero top words
receives score 0, and such a sentence appears in the summarizer's output
only when k exceeds the number of sentences with nonzero score. -/
theorem C7_luhn_zero_top_words :
    (∀ (tops : List String) (s : Sentence),
      hasNoTopWord tops s → luhnScore tops s = 0) ∧
    (∀ (doc : Document) (k : Nat) (s : Sentence), s ∈ luhnSummarize doc k →
      hasNoTopWord (topWords doc luhnTopWordCount) s →
      doc.countP
        (fun x => decide (luhnScore (topWords doc luhnTopWordCount) x ≠ 0)) < k) := by
  constructor
  · exact fun _ _ h => luhnScore_eq_zero h
  · intro doc k s hmem hno
    exact countP_lt_of_selected_zero _ (fun x _ => luhnScore_nonneg _ x) hmem
      (luhnScore_eq_zero hno)

/-- Concrete document used in witnesses: an all-stopword sentence followed
by a content sentence. -/
def sStopW : Sentence := ⟨"The.", 0, [⟨"the", "the", true⟩]⟩

/-- Concrete content sentence for witnesses. -/
def sCatW : Sentence := ⟨"Cat.", 1, [⟨"cat", "cat", false⟩]⟩

/-- Concrete witness document. -/
def docW : Document := [sStopW, sCatW]

/-- Witness for C7 at a concrete document: the all-stopword sentence is
selected when k = 2 and indeed scores 0 with only one nonzero-score
sentence present. -/
theorem C7_luhn_zero_top_words_witness :
    luhnScore (topWords docW luhnTopWordCount) sStopW = 0 ∧
      docW.countP
        (fun x => decide (luhnScore (topWords docW luhnTopWordCount) x ≠ 0)) < 2 :=
  ⟨C7_luhn_zero_top_words.1 (topWords docW luhnTopWordCount) sStopW (by decide),
   C7_luhn_zero_top_words.2 docW 2 sStopW
    (by
      rw [luhnSummarize, selectTopK_eq_all _ (by decide) (by decide)]
      decide)
    (by decide)⟩

/-! ### SumBasic (spec §4.2), modelled from the spec -/

/-- Distinct non-stopword stems of a sentence, in first occurrence order. -/
def distinctContentStems (s : Sentence) : List String :=
  firstOccurrences (contentStems s)

/-- Modelled from the spec: initial word probability
`p(w) = count(w) / totalWords` over non-stopword terms (spec §4.2 SumBasic
step 1); the sumy implementation is external to the repository. -/
def initProbs (doc : Document) : String → ℚ :=
  fun w => ((termSeq doc).count w : ℚ) / ((termSeq doc).length : ℚ)

/-- Modelled from the spec: sentence score = average of `p(w)` over the
sentence's non-stopword distinct words (spec §4.2 SumBasic step 2). -/
def sumBasicScore (p : String → ℚ) (s : Sentence) : ℚ :=
  ((distinctContentStems s).map p).sum / ((distinctContentStems s).length : ℚ)

/-- State of one SumBasic run.  The word probability table is local to a
single run (spec §3, WordProbabilityTable). -/
structure SBState where
  probs : String → ℚ
  remaining : List Sentence
  chosen : List Sentence

/-- The sentence picked at one SumBasic iteration: the highest scoring
remaining sentence, ties broken by the earliest remaining one
(spec §4.2 SumBasic step 3). -/
def sbSelected (st : SBState) : Option Sentence :=
  st.remaining.argmax (sumBasicScore st.probs)

/-- Modelled from the spec: one SumBasic iteration: select the highest
scoring sentence, append it to the result, and square the probability of
every word occurring in it (spec §4.2 SumBasic steps 2-4). -/
def sumBasicStep (st : SBState) : Option SBState :=
  (sbSelected st).map (fun s =>
    { probs := fun w => if w ∈ contentStems s then st.probs w ^ 2 else st.probs w
      remaining := st.remaining.erase s
      chosen := st.chosen ++ [s] })

/-- Repeat SumBasic iterations until k sentences are chosen or no sentences
remain (spec §4.2 SumBasic step 5). -/
def sumBasicLoop : Nat → SBState → SBState
  | 0, st => st
  | n + 1, st =>
    match sumBasicStep st with
    | none => st
    | some st' => sumBasicLoop n st'

/-- Modelled from the spec: the SumBasic strategy; the iteratively chosen
set is re-sorted into original document order for output (spec §4.5). -/
def sumBasicSummarize (doc : Document) (k : Nat) : List Sentence :=
  sortByPos ((sumBasicLoop k ⟨initProbs doc, doc, []⟩).chosen)

/-- C4: in SumBasic, at every iteration each sentence's score equals the
average of the current word probabilities `p(w)` over the sentence's
non-stopword distinct words, the selected sentence maximizes that score,
and after the selection every word occurring in the selected sentence has
its probability updated to `p(w)²` (all other probabilities unchanged)
before the next iteration. -/
theorem C4_sumbasic_score_and_decay (st st' : SBState) (s : Sentence)
    (hsel : sbSelected st = some s) (hstep : sumBasicStep st = some st') :
    (∀ x : Sentence, sumBasicScore st.probs x =
        ((distinctContentStems x).map st.probs).sum /
          ((distinctContentStems x).length : ℚ)) ∧
    (∀ x ∈ st.remaining, sumBasicScore st.probs x ≤ sumBasicScore st.probs s) ∧
    (∀ w ∈ contentStems s, st'.probs w = st.probs w ^ 2) ∧
    (∀ w, w ∉ contentStems s → st'.probs w = st.probs w) ∧
    st'.chosen = st.chosen ++ [s] := by
  have hst' : st' =
      { probs := fun w => if w ∈ contentStems s then st.probs w ^ 2 else st.probs w
        remaining := st.remaining.erase s
        chosen := st.chosen ++ [s] } := by
    rw [sumBasicStep, hsel] at hstep
    exact (Option.some.inj hstep).symm
  refine ⟨fun _ => rfl, ?_, ?_, ?_, ?_⟩
  · intro x hx
    exact List.le_of_mem_argmax hx (Option.mem_def.2 hsel)
  · intro w hw
    rw [hst']
    simp only [if_pos hw]
  · intro w hw
    rw [hst']
    simp only [if_neg hw]
  · rw [hst']

/-- Concrete SumBasic witness state: a one-sentence document. -/
def sbW : Sentence := ⟨"Cat.", 0, [⟨"cat", "cat", false⟩]⟩

/-- Initial SumBasic state on the one-sentence witness document. -/
def sbSt0 : SBState := ⟨initProbs [sbW], [sbW], []⟩

/-- State after one SumBasic step on the witness document. -/
def sbSt1 : SBState :=
  ⟨fun w => if w ∈ contentStems sbW then sbSt0.probs w ^ 2 else sbSt0.probs w,
    List.erase [sbW] sbW, [] ++ [sbW]⟩

/-- Witness for C4 at the concrete one-sentence run: the score formula, the
squared decay of the selected word, and the chosen list extension. -/
theorem C4_sumbasic_score_and_decay_witness :
    sumBasicScore sbSt0.probs sbW =
        ((distinctContentStems sbW).map sbSt0.probs).sum /
          ((distinctContentStems sbW).length : ℚ) ∧
      sbSt1.probs "cat" = sbSt0.probs "cat" ^ 2 ∧
      sbSt1.chosen = [] ++ [sbW] :=
  ⟨(C4_sumbasic_score_and_decay sbSt0 sbSt1 sbW rfl rfl).1 sbW,
   (C4_sumbasic_score_and_decay sbSt0 sbSt1 sbW rfl rfl).2.2.1 "cat" (by decide),
   (C4_sumbasic_score_and_decay sbSt0 sbSt1 sbW rfl rfl).2.2.2.2⟩

/-! ### KL divergence strategy (spec §4.2), modelled from the spec -/

/-- Non-stopword terms of a summary set, with multiplicity. -/
def summaryTerms (chosen : List Sentence) : List String :=
  (chosen.map contentStems).flatten

/-- Modelled from the spec: document-wide unigram distribution `PD`
(spec §4.2 KL scoring); the sumy implementation is external. -/
noncomputable def docDist (doc : Document) : String → ℝ :=
  fun w => ((termSeq doc).count w : ℝ) / ((termSeq doc).length : ℝ)

/-- Modelled from the spec: unigram distribution `PS` of a summary set
(spec §4.2 KL scoring). -/
noncomputable def summDist (chosen : List Sentence) : String → ℝ :=
  fun w => ((summaryTerms chosen).count w : ℝ) / ((summaryTerms chosen).length : ℝ)

/-- One term of the KL divergence sum `PD(w) log(PD(w)/PS(w))`; terms with
`PS(w) = 0` contribute 0 — "treated as divergence contribution of 0,
i.e. skipped, to avoid undefined logs" (spec §4.2). -/
noncomputable def klDivTerm (pd ps : String → ℝ) (w : String) : ℝ :=
  if ps w = 0 then 0 else pd w * Real.log (pd w / ps w)

/-- KL divergence summed over a vocabulary. -/
noncomputable def klDiv (vocab : List String) (pd ps : String → ℝ) : ℝ :=
  (vocab.map (klDivTerm pd ps)).sum

/-- The distinct document vocabulary. -/
def klVocab (doc : Document) : List String := firstOccurrences (termSeq doc)

/-- Divergence of the summary obtained by adding sentence `s` to the
current summary set (spec §4.2 KL scoring). -/
noncomputable def klCandDiv (doc : Document) (chosen : List Sentence)
    (s : Sentence) : ℝ :=
  klDiv (klVocab doc) (docDist doc) (summDist (chosen ++ [s]))

/-- State of one greedy KL run: the chosen summary set, the unselected
sentences, and the divergences of the successive summary sets. -/
structure KLState where
  chosen : List Sentence
  remaining : List Sentence
  divs : List ℝ

/-- Modelled from the spec: one greedy KL step: pick the unselected
sentence minimizing the divergence of `S ∪ {sentence}` (ties to the
earliest), and stop when the divergence cannot improve (spec §4.2 KL:
"Repeat until k sentences or divergence cannot improve"). -/
noncomputable def klStep (doc : Document) (st : KLState) : Option KLState :=
  (st.remaining.argmin (klCandDiv doc st.chosen)).bind (fun s =>
    let d := klCandDiv doc st.chosen s
    match st.divs.getLast? with
    | none => some ⟨st.chosen ++ [s], st.remaining.erase s, st.divs ++ [d]⟩
    | some dprev =>
      if d < dprev then some ⟨st.chosen ++ [s], st.remaining.erase s, st.divs ++ [d]⟩
      else none)

/-- Repeat greedy KL steps until k sentences are chosen, no sentence
remains, or the divergence cannot improve. -/
noncomputable def klLoop (doc : Document) : Nat → KLState → KLState
  | 0, st => st
  | n + 1, st =>
    match klStep doc st with
    | none => st
    | some st' => klLoop doc n st'

/-- Modelled from the spec: the KL strategy; the chosen set is re-sorted
into original document order for output (spec §4.5). -/
noncomputable def klSummarize (doc : Document) (k : Nat) : List Sentence :=
  sortByPos ((klLoop doc k ⟨[], doc, []⟩).chosen)

/-- The divergences of the successive greedily grown summary sets. -/
noncomputable def klDivTrace (doc : Document) (k : Nat) : List ℝ :=
  (klLoop doc k ⟨[], doc, []⟩).divs

/-- One KL step preserves the non-increasing divergence chain. -/
theorem klStep_divs_chain {doc : Document} {st st' : KLState}
    (h : klStep doc st = some st')
    (hc : st.divs.Chain' (fun a b => b ≤ a)) :
    st'.divs.Chain' (fun a b => b ≤ a) := by
  unfold klStep at h
  cases harg : st.remaining.argmin (klCandDiv doc st.chosen) with
  | none =>
    rw [harg, Option.none_bind] at h
    exact absurd h (by simp)
  | some s =>
    rw [harg, Option.some_bind] at h
    cases hlast : st.divs.getLast? with
    | none =>
      rw [hlast] at h
      dsimp only at h
      have hval := Option.some.inj h
      have hnil : st.divs = [] := List.getLast?_eq_none_iff.mp hlast
      rw [← hval]
      simp [hnil]
    | some dprev =>
      rw [hlast] at h
      dsimp only at h
      by_cases hlt : klCandDiv doc st.chosen s < dprev
      · rw [if_pos hlt] at h
        have hval := Option.some.inj h
        rw [← hval]
        refine List.Chain'.append hc (List.chain'_singleton _) ?_
        intro x hx y hy
        rw [hlast, Option.mem_def, Option.some.injEq] at hx
        rw [List.head?_cons, Option.mem_def, Option.some.injEq] at hy
        rw [← hx, ← hy]
        exact le_of_lt hlt
      · rw [if_neg hlt] at h
        exact absurd h (by simp)

/-- The KL loop preserves the non-increasing divergence chain. -/
theorem klLoop_divs_chain (doc : Document) :
    ∀ (n : Nat) (st : KLState), st.divs.Chain' (fun a b => b ≤ a) →
      (klLoop doc n st).divs.Chain' (fun a b => b ≤ a) := by
  intro n
  induction n with
  | zero => intro st hc; exact hc
  | succ m ih =>
    intro st hc
    rw [klLoop]
    cases hstep : klStep doc st with
    | none => exact hc
    | some st' => exact ih st' (klStep_divs_chain hstep hc)

/-- C5: in the KL strategy, terms with `PS(w) = 0` contribute 0 to the
computed divergence (no undefined logarithm is evaluated), and the KL
divergence of the growing summary set from the document distribution is
non-increasing as each sentence is added. -/
theorem C5_kl_zero_terms_and_monotone :
    (∀ (pd ps : String → ℝ) (w : String), ps w = 0 → klDivTerm pd ps w = 0) ∧
    (∀ (doc : Document) (k : Nat),
      (klDivTrace doc k).Chain' (fun a b => b ≤ a)) := by
  constructor
  · intro pd ps w h
    unfold klDivTerm
    rw [if_pos h]
  · intro doc k
    exact klLoop_divs_chain doc k ⟨[], doc, []⟩ (List.chain'_nil)

/-- Witness for C5 at concrete inputs: the zero-probability term of the
empty summary distribution contributes 0, and the divergence trace of the
witness document is a non-increasing chain. -/
theorem C5_kl_zero_terms_and_monotone_witness :
    klDivTerm (docDist docW) (summDist []) "cat" = 0 ∧
      (klDivTrace docW 1).Chain' (fun a b => b ≤ a) :=
  ⟨C5_kl_zero_terms_and_monotone.1 (docDist docW) (summDist []) "cat"
      (by simp [summDist, summaryTerms]),
   C5_kl_zero_terms_and_monotone.2 docW 1⟩

/-! ### GraphRank power iteration (spec §4.3), modelled from the spec -/

/-- Damping factor `d` (spec §6: `damping_factor` default 0.85). -/
def dampingFactor : ℚ := 85 / 100

/-- Convergence threshold `ε` (spec §6: `convergence_epsilon` default 1e-4). -/
def convergenceEpsilon : ℚ := 1 / 10000

/-- Iteration cap (spec §6: `max_iterations` default 100). -/
def maxIterations : Nat := 100

/-- Modelled from the spec: one power iteration step
`p_{t+1} = (1-d) + d·M^T p_t` (spec §4.3); the sumy implementation is
external to the repository. -/
def grStep (n : Nat) (M : Fin n → Fin n → ℚ) (p : Fin n → ℚ) : Fin n → ℚ :=
  fun i => (1 - dampingFactor) + dampingFactor * ∑ j, M j i * p j

/-- L1 distance between score vectors. -/
def l1dist (n : Nat) (p q : Fin n → ℚ) : ℚ := ∑ i, |p i - q i|

/-- Modelled from the spec: power iteration until the L1 change drops below
ε or the iteration cap is exhausted, returning the last computed iterate on
cap exhaustion (spec §4.3: "on cap exhaustion, return the last iterate
rather than fail"). -/
def powerIterate (n : Nat) (M : Fin n → Fin n → ℚ) :
    Nat → (Fin n → ℚ) → (Fin n → ℚ)
  | 0, p => p
  | fuel + 1, p =>
    if l1dist n (grStep n M p) p < convergenceEpsilon then grStep n M p
    else powerIterate n M fuel (grStep n M p)

/-- Uniform initial vector (spec §4.3: "Initial vector is uniform"). -/
def initialVector (n : Nat) : Fin n → ℚ := fun _ => 1 / (n : ℚ)

/-- Modelled from the spec: row-stochastic transition matrix derived from
the similarity matrix (spec §4.3); an all-zero row yields zeros, matching
the zero-fallback rule for numeric degeneracies (spec §7). -/
def transitionMatrix (n : Nat) (sim : Fin n → Fin n → ℚ) : Fin n → Fin n → ℚ :=
  fun i j => sim i j / ∑ m, sim i m

/-- Modelled from the spec: the GraphRank ranking vector: capped,
ε-thresholded power iteration (spec §4.3). -/
def graphRankVector (n : Nat) (M : Fin n → Fin n → ℚ) (p0 : Fin n → ℚ) :
    Fin n → ℚ :=
  powerIterate n M maxIterations p0

/-- Modelled from the spec: the graph-based strategy: build the similarity
graph over sentences with a configurable metric, rank by power iteration
from the uniform vector, select top-k (spec §4.3, §4.5). -/
def graphRankSummarize (sim : Sentence → Sentence → ℚ) (doc : Document)
    (k : Nat) : List Sentence :=
  selectTopK
    (fun s =>
      if h : s.position < doc.length then
        graphRankVector doc.length
          (transitionMatrix doc.length (fun i j => sim (doc.get i) (doc.get j)))
          (initialVector doc.length) ⟨s.position, h⟩
      else 0)
    doc k

/-- The power iteration result is always one of the iterates, reached
within the fuel bound: bounded-effort termination. -/
theorem powerIterate_exists_iterate (n : Nat) (M : Fin n → Fin n → ℚ) :
    ∀ (fuel : Nat) (p : Fin n → ℚ),
      ∃ t ≤ fuel, powerIterate n M fuel p = (grStep n M)^[t] p := by
  intro fuel
  induction fuel with
  | zero => exact fun p => ⟨0, le_refl 0, rfl⟩
  | succ m ih =>
    intro p
    rw [powerIterate]
    by_cases h : l1dist n (grStep n M p) p < convergenceEpsilon
    · exact ⟨1, by omega, by rw [if_pos h, Function.iterate_one]⟩
    · obtain ⟨t, ht, heq⟩ := ih (grStep n M p)
      exact ⟨t + 1, by omega, by rw [if_neg h, heq, Function.iterate_succ_apply]⟩

/-- When no iterate change drops below the threshold before the fuel is
exhausted, power iteration runs the full fuel and returns the last
computed iterate. -/
theorem powerIterate_cap (n : Nat) (M : Fin n → Fin n → ℚ) :
    ∀ (fuel : Nat) (p : Fin n → ℚ),
      (∀ t < fuel, convergenceEpsilon ≤
        l1dist n ((grStep n M)^[t + 1] p) ((grStep n M)^[t] p)) →
      powerIterate n M fuel p = (grStep n M)^[fuel] p := by
  intro fuel
  induction fuel with
  | zero => exact fun p _ => rfl
  | succ m ih =>
    intro p h
    have h0 := h 0 (Nat.succ_pos m)
    simp only [zero_add, Function.iterate_one, Function.iterate_zero, id_eq] at h0
    rw [powerIterate, if_neg (not_lt.mpr h0)]
    have hrec := ih (grStep n M p) (fun t ht => by
      have := h (t + 1) (by omega)
      simpa [Function.iterate_succ_apply] using this)
    rw [hrec, ← Function.iterate_succ_apply]

/-- C6: the GraphRank power iteration always terminates (it is a total
function, shown to return one of its own iterates within the cap by
`powerIterate_exists_iterate`), and when the L1 change never drops below ε
before the default cap of 100 iterations, it returns the 100th iterate —
the last computed one — rather than raising an error. -/
theorem C6_graphrank_cap_returns_last_iterate (n : Nat)
    (M : Fin n → Fin n → ℚ) (p0 : Fin n → ℚ)
    (h : ∀ t < maxIterations, convergenceEpsilon ≤
      l1dist n ((grStep n M)^[t + 1] p0) ((grStep n M)^[t] p0)) :
    graphRankVector n M p0 = (grStep n M)^[maxIterations] p0 :=
  powerIterate_cap n M maxIterations p0 h

/-- Witness similarity matrix: the single-node matrix with weight 20/17,
for which each power step adds exactly 3/20 to the score. -/
def grMW : Fin 1 → Fin 1 → ℚ := fun _ _ => 20 / 17

/-- Witness initial vector. -/
def grPW : Fin 1 → ℚ := fun _ => 1

/-- Closed form of the witness iterates: the t-th iterate is 1 + (3/20)t. -/
theorem grMW_iterate (t : Nat) :
    (grStep 1 grMW)^[t] grPW = fun _ => 1 + (3 / 20 : ℚ) * t := by
  induction t with
  | zero =>
    funext i
    simp [grPW]
  | succ m ih =>
    funext i
    rw [Function.iterate_succ_apply', ih]
    simp only [grStep, grMW, dampingFactor, Fin.sum_univ_one]
    push_cast
    ring

/-- Witness for C6: on the single-node witness matrix the change never
falls below ε, and the returned ranking vector is the 100th iterate. -/
theorem C6_graphrank_cap_returns_last_iterate_witness :
    graphRankVector 1 grMW grPW = (grStep 1 grMW)^[maxIterations] grPW :=
  C6_graphrank_cap_returns_last_iterate 1 grMW grPW (by
    intro t ht
    rw [grMW_iterate, grMW_iterate]
    unfold l1dist convergenceEpsilon
    rw [Fin.sum_univ_one]
    push_cast
    rw [show (1 + 3 / 20 * ((t : ℚ) + 1) - (1 + 3 / 20 * t)) = 3 / 20 by ring,
      abs_of_nonneg (by norm_num : (0 : ℚ) ≤ 3 / 20)]
    norm_num)

/-! ### LSA selection (spec §4.4), modelled from the spec -/

/-- Modelled from the spec: LSA policy (a) selection (spec §4.4): for each
singular component, in descending singular-value order, the sentence with
the largest magnitude in that component's row of `Vᵗ` is selected — once
per component, skipping sentences already chosen — truncated to the top
`k` components.  The SVD factorization itself is the RankReducer's numeric
routine, external to this model: `rows` are the rows of `Vᵗ` indexed by
sentence position, given in descending singular-value order. -/
def lsaSelectPositions (rows : List (Nat → ℚ)) (n : Nat) (k : Nat) : List Nat :=
  (rows.take k).foldl
    (fun acc row =>
      match ((List.range n).filter (fun j => j ∉ acc)).argmax (fun j => |row j|) with
      | some j => acc ++ [j]
      | none => acc) []

/-- Modelled from the spec: the LSA strategy over a given factorization;
the selected positions are mapped back to sentences and re-sorted into
original document order (spec §4.4, §4.5). -/
def lsaSummarize (rows : List (Nat → ℚ)) (doc : Document) (k : Nat) :
    List Sentence :=
  sortByPos ((lsaSelectPositions rows doc.length k).filterMap (fun j => doc[j]?))

/-! ### Claim C3: requesting k ≥ sentence count -/

/-- With enough fuel, the SumBasic loop consumes every remaining sentence:
the final chosen list is a permutation of the initial chosen and remaining
sentences together. -/
theorem sumBasicLoop_chosen_perm :
    ∀ (n : Nat) (st : SBState), st.remaining.length ≤ n →
      (sumBasicLoop n st).chosen.Perm (st.chosen ++ st.remaining) := by
  intro n
  induction n with
  | zero =>
    intro st h
    have : st.remaining = [] := List.eq_nil_of_length_eq_zero (Nat.le_zero.mp h)
    rw [sumBasicLoop, this, List.append_nil]
  | succ m ih =>
    intro st h
    rw [sumBasicLoop]
    cases hstep : sumBasicStep st with
    | none =>
      have : st.remaining = [] := by
        unfold sumBasicStep sbSelected at hstep
        rcases harg : st.remaining.argmax (sumBasicScore st.probs) with _ | s
        · exact List.argmax_eq_none.mp harg
        · rw [harg] at hstep
          exact absurd hstep (by simp)
      rw [this, List.append_nil]
    | some st' =>
      unfold sumBasicStep at hstep
      rcases harg : sbSelected st with _ | s
      · rw [harg] at hstep
        exact absurd hstep (by simp)
      · rw [harg] at hstep
        have hmem : s ∈ st.remaining :=
          List.argmax_mem (Option.mem_def.2 harg)
        have hst' := Option.some.inj hstep
        have hlen : st'.remaining.length ≤ m := by
          rw [← hst']
          rw [List.length_erase_of_mem hmem]
          omega
        have hchosen : st'.chosen = st.chosen ++ [s] := by rw [← hst']
        have hrem : st'.remaining = st.remaining.erase s := by rw [← hst']
        have := ih st' hlen
        rw [hchosen, hrem] at this
        refine this.trans ?_
        rw [List.append_assoc]
        exact ((List.perm_cons_erase hmem).symm.append_left st.chosen).trans
          (List.Perm.refl _) |>.trans (List.Perm.refl _) |>.symm.symm

/-- Requesting k ≥ sentence count with SumBasic returns the whole document
in original order. -/
theorem sumBasicSummarize_eq_all {doc : Document} {k : Nat}
    (hw : wellPositioned doc) (hk : doc.length ≤ k) :
    sumBasicSummarize doc k = doc := by
  unfold sumBasicSummarize
  have hperm := sumBasicLoop_chosen_perm k ⟨initProbs doc, doc, []⟩ hk
  rw [List.nil_append] at hperm
  exact sortByPos_eq_of_perm hperm hw

/-- C3 (amended): for the Luhn, SumBasic and GraphRank strategies,
requesting k greater than or equal to the document's sentence count
returns all sentences of the document in their original order; the KL and
LSA strategies may return fewer sentences (KL stops when the divergence
cannot improve, LSA yields one sentence per retained singular component),
and in no case is returning fewer than k sentences an error: every
strategy is a total function. -/
theorem C3_k_ge_count_returns_all_amended (doc : Document) (k : Nat)
    (sim : Sentence → Sentence → ℚ)
    (hw : wellPositioned doc) (hk : doc.length ≤ k) :
    luhnSummarize doc k = doc ∧
      sumBasicSummarize doc k = doc ∧
      graphRankSummarize sim doc k = doc := by
  refine ⟨?_, sumBasicSummarize_eq_all hw hk, ?_⟩
  · exact selectTopK_eq_all _ hw hk
  · exact selectTopK_eq_all _ hw hk

/-- Witness for amended C3 at the concrete two-sentence document with
k = 2 and the constant similarity metric. -/
theorem C3_k_ge_count_returns_all_amended_witness :
    luhnSummarize docW 2 = docW ∧
      sumBasicSummarize docW 2 = docW ∧
      graphRankSummarize (fun _ _ => 1) docW 2 = docW :=
  C3_k_ge_count_returns_all_amended docW 2 (fun _ _ => 1)
    (by decide) (by decide)

/-- Two single-content-word sentences used by the C3 counterexample. -/
def sX : Sentence := ⟨"X.", 0, [⟨"x", "x", false⟩]⟩

/-- Second counterexample sentence. -/
def sY : Sentence := ⟨"Y.", 1, [⟨"y", "y", false⟩]⟩

/-- The counterexample document. -/
def docXY : Document := [sX, sY]

/-- Single LSA component row used by the C3 counterexample: a rank-one
factorization retaining one singular component. -/
def lsaRowsW : List (Nat → ℚ) := [fun j => if j = 0 then 1 else 0]

/-- The candidate divergence of the singleton summary {sX}: only the term
for "x" contributes, giving (1/2)·log(1/2). -/
theorem klCandDiv_nil_sX : klCandDiv docXY [] sX = (1 / 2 : ℝ) * Real.log (1 / 2) := by
  have hyx : ¬("y" : String) = "x" := by decide
  norm_num [klCandDiv, klDiv, klVocab, klDivTerm, docDist, summDist, summaryTerms,
    termSeq, contentStems, docXY, sX, sY, firstOccurrences, firstOccurrencesAux,
    List.count_cons, List.count_nil, hyx]

/-- The candidate divergence of the singleton summary {sY} equals that of
{sX} by symmetry of the two one-word sentences. -/
theorem klCandDiv_nil_sY : klCandDiv docXY [] sY = (1 / 2 : ℝ) * Real.log (1 / 2) := by
  have hyx : ¬("y" : String) = "x" := by decide
  norm_num [klCandDiv, klDiv, klVocab, klDivTerm, docDist, summDist, summaryTerms,
    termSeq, contentStems, docXY, sX, sY, firstOccurrences, firstOccurrencesAux,
    List.count_cons, List.count_nil, hyx]

/-- The candidate divergence of the full summary {sX, sY} is 0: both terms
are (1/2)·log(1) = 0. -/
theorem klCandDiv_sX_sY : klCandDiv docXY [sX] sY = 0 := by
  have hyx : ¬("y" : String) = "x" := by decide
  norm_num [klCandDiv, klDiv, klVocab, klDivTerm, docDist, summDist, summaryTerms,
    termSeq, contentStems, docXY, sX, sY, firstOccurrences, firstOccurrencesAux,
    List.count_cons, List.count_nil, hyx]

/-- The first greedy KL pick on the counterexample document is sX (the tie
with sY is broken towards the earlier sentence). -/
theorem klArgmin_docXY : docXY.argmin (klCandDiv docXY []) = some sX := by
  show List.foldl (List.argAux fun b c => klCandDiv docXY [] b < klCandDiv docXY [] c)
    none [sX, sY] = some sX
  simp only [List.foldl_cons, List.foldl_nil, List.argAux]
  simp only [klCandDiv_nil_sX, klCandDiv_nil_sY]
  exact if_neg (lt_irrefl _)

/-- The first greedy KL step on the counterexample document selects sX. -/
theorem klStep_docXY_first :
    klStep docXY ⟨[], docXY, []⟩ =
      some ⟨[sX], [sY], [klCandDiv docXY [] sX]⟩ := by
  unfold klStep
  rw [show (⟨[], docXY, []⟩ : KLState).remaining = docXY from rfl,
    show (⟨[], docXY, []⟩ : KLState).chosen = [] from rfl, klArgmin_docXY,
    Option.some_bind]
  dsimp only
  rw [List.getLast?_nil]
  dsimp only
  rw [show docXY.erase sX = [sY] by decide]
  rfl

/-- The second greedy KL step stops: adding sY would raise the divergence
from (1/2)·log(1/2) < 0 back to 0, so the divergence cannot improve. -/
theorem klStep_docXY_second :
    klStep docXY ⟨[sX], [sY], [klCandDiv docXY [] sX]⟩ = none := by
  unfold klStep
  rw [show ([sY].argmin (klCandDiv docXY [sX])) = some sY from rfl,
    Option.some_bind]
  dsimp only
  rw [List.getLast?_singleton]
  dsimp only
  rw [if_neg]
  rw [klCandDiv_sX_sY, klCandDiv_nil_sX]
  have hlog : Real.log (1 / 2) < 0 :=
    Real.log_neg (by norm_num) (by norm_num)
  have : (1 / 2 : ℝ) * Real.log (1 / 2) < 0 :=
    mul_neg_of_pos_of_neg (by norm_num) hlog
  exact not_lt.mpr (le_of_lt this)

/-- The greedy KL run on the counterexample document with k = 2 chooses
only sX. -/
theorem klSummarize_docXY : klSummarize docXY 2 = [sX] := by
  unfold klSummarize
  rw [show (2 : Nat) = 1 + 1 from rfl, klLoop, klStep_docXY_first]
  dsimp only
  rw [klLoop, klStep_docXY_second]
  rfl

/-- C3 counterexample: with k = 2 ≥ sentence count, the KL strategy stops
after one sentence (the divergence cannot improve) and the LSA strategy
with a rank-one factorization returns one sentence per retained component;
neither returns the whole document. -/
theorem C3_counterexample :
    2 ≥ docXY.length ∧ klSummarize docXY 2 ≠ docXY ∧
      lsaSummarize lsaRowsW docXY 2 ≠ docXY := by
  refine ⟨by decide, ?_, by decide⟩
  rw [klSummarize_docXY]
  decide

/-! ### The summarization facade `sumySummarize` (source lines 27-107) -/

/-- The six external sumy summarizer callables that `sumySummarize`
invokes; each maps the parsed document and a sentence count to the list of
selected sentences.  The stemmer construction and the stop-word assignment
performed inside `getSummary` are absorbed into each callable. -/
structure SumyAlgorithms where
  luhn : Document → Nat → List Sentence
  lsa : Document → Nat → List Sentence
  textRank : Document → Nat → List Sentence
  lexRank : Document → Nat → List Sentence
  sumBasic : Document → Nat → List Sentence
  kl : Document → Nat → List Sentence

/-- Embedding of the inner `getSummary`: run one summarizer on the parsed
document and convert each selected sentence to its surface string
(`sents = [str(sentence) for sentence in summary]`). -/
def getSummary (doc : Document) (num_sents : Nat)
    (algo : Document → Nat → List Sentence) : List String :=
  (algo doc num_sents).map Sentence.text

/-- Embedding of `sumySummarize` at document level: the source runs all
six sumy algorithms on the parsed document and collects their summaries
into the `summaries` dict, keyed by algorithm name in insertion order. -/
def sumySummarize (A : SumyAlgorithms) (doc : Document) (num_sents : Nat) :
    List (String × List String) :=
  [("Luhn", getSummary doc num_sents A.luhn),
   ("LSA", getSummary doc num_sents A.lsa),
   ("TextRank", getSummary doc num_sents A.textRank),
   ("LexRank", getSummary doc num_sents A.lexRank),
   ("SumBasic", getSummary doc num_sents A.sumBasic),
   ("KL", getSummary doc num_sents A.kl)]

/-- A filesystem: file name to contents, when the file exists. -/
abbrev FileSys := String → Option String

/-- Embedding of `sumySummarize` at file level: the plaintext parsing
(`PlaintextParser.from_file(filename, Tokenizer(language))`) is performed
by an external parser, taken as a function of the language and the file
contents; a missing file is a failure. -/
def sumySummarizeFile (parse : String → String → Document)
    (A : SumyAlgorithms) (fs : FileSys) (filename language : String)
    (num_sents : Nat) : Option (List (String × List String)) :=
  (fs filename).map (fun text =>
    sumySummarize A (parse language text) num_sents)

/-- The actions the `__main__` block can take after reading the menu
choice. -/
inductive MainAction where
  | runSumy (filename language : String) (sentenceCount : Nat)
  | runGensim (filename : String) (coverage : ℚ)
  | runPyteaser (filename title : String) (sentenceCount : Nat)
  | runPytrank (filename : String)
  | printWrongChoice
deriving DecidableEq

/-- Embedding of the `__main__` dispatch (source lines 250-261): the
constants `TEXT_FILE`, `LANGUAGE`, `SENTENCE_COUNT` and the if/elif chain
over the menu choice; any choice outside 1..4 prints "Wrong choice". -/
def mainDispatch (choice : Int) : MainAction :=
  if choice = 1 then MainAction.runSumy "sample_text.txt" "english" 2
  else if choice = 2 then MainAction.runGensim "sample_text.txt" (2 / 10)
  else if choice = 3 then MainAction.runPyteaser "sample_text.txt" "Topic Modelling" 2
  else if choice = 4 then MainAction.runPytrank "sample_text.txt"
  else MainAction.printWrongChoice

/-- The spec-modelled algorithm suite standing in for the six sumy
summarizer objects; the graph strategies take their similarity metric and
LSA its factorization rows as parameters, since those are produced by
external numeric routines. -/
noncomputable def specAlgos (rows : Document → List (Nat → ℚ))
    (simT simL : Sentence → Sentence → ℚ) : SumyAlgorithms where
  luhn := luhnSummarize
  lsa := fun doc k => lsaSummarize (rows doc) doc k
  textRank := graphRankSummarize simT
  lexRank := graphRankSummarize simL
  sumBasic := sumBasicSummarize
  kl := klSummarize

/-- C1 counterexample: at a concrete document with k = 1, the top-level
entry point returns an association list with entries for all six
algorithms, whose values are lists of bare sentence strings — not an
ordered sequence of {text, position, score} records for one single
dispatched strategy (the function has no algorithm argument at all). -/
theorem C1_counterexample :
    (sumySummarize (specAlgos (fun _ => lsaRowsW) (fun _ _ => 1) (fun _ _ => 1))
        docW 1).map Prod.fst =
      ["Luhn", "LSA", "TextRank", "LexRank", "SumBasic", "KL"] ∧
    (sumySummarize (specAlgos (fun _ => lsaRowsW) (fun _ _ => 1) (fun _ _ => 1))
        docW 1).length = 6 := ⟨rfl, rfl⟩

/-- C1 (amended): `sumySummarize` takes no algorithm identifier; for every
algorithm bundle, document and sentence count it returns the summaries of
all six sumy strategies as an association list in the fixed order Luhn,
LSA, TextRank, LexRank, SumBasic, KL, each value being the list of the
selected sentences' bare surface strings. -/
theorem C1_runs_all_six_algorithms_amended (A : SumyAlgorithms)
    (doc : Document) (num_sents : Nat) :
    sumySummarize A doc num_sents =
      [("Luhn", (A.luhn doc num_sents).map Sentence.text),
       ("LSA", (A.lsa doc num_sents).map Sentence.text),
       ("TextRank", (A.textRank doc num_sents).map Sentence.text),
       ("LexRank", (A.lexRank doc num_sents).map Sentence.text),
       ("SumBasic", (A.sumBasic doc num_sents).map Sentence.text),
       ("KL", (A.kl doc num_sents).map Sentence.text)] := rfl

/-- C2 counterexample: with num_sents = 0 (k ≤ 0) and with the empty
document (zero sentences) the facade returns its normal six-entry result
instead of failing with InvalidRequest or EmptyDocument; the code has no
error channel at all. -/
theorem C2_counterexample :
    (sumySummarize (specAlgos (fun _ => lsaRowsW) (fun _ _ => 1) (fun _ _ => 1))
        docW 0).map Prod.fst =
      ["Luhn", "LSA", "TextRank", "LexRank", "SumBasic", "KL"] ∧
    (sumySummarize (specAlgos (fun _ => lsaRowsW) (fun _ _ => 1) (fun _ _ => 1))
        ([] : Document) 2).map Prod.fst =
      ["Luhn", "LSA", "TextRank", "LexRank", "SumBasic", "KL"] := ⟨rfl, rfl⟩

/-- C2 (amended): the code performs no request validation: for every
algorithm bundle, every document (including the empty one) and every
sentence count (including 0), `sumySummarize` returns its six-entry
summary list and never raises InvalidRequest, EmptyDocument or
UnknownAlgorithm; there is no algorithm-identifier argument, and the only
unknown-identifier handling in the program is the CLI menu, which prints
"Wrong choice" for any choice outside 1..4. -/
theorem C2_no_validation_amended (A : SumyAlgorithms) (doc : Document)
    (num_sents : Nat) (choice : Int)
    (hc : choice ∉ ([1, 2, 3, 4] : List Int)) :
    (sumySummarize A doc num_sents).map Prod.fst =
        ["Luhn", "LSA", "TextRank", "LexRank", "SumBasic", "KL"] ∧
      mainDispatch choice = MainAction.printWrongChoice := by
  simp only [List.mem_cons, List.not_mem_nil, or_false, not_or] at hc
  obtain ⟨hc1, hc2, hc3, hc4⟩ := hc
  refine ⟨rfl, ?_⟩
  unfold mainDispatch
  rw [if_neg hc1, if_neg hc2, if_neg hc3, if_neg hc4]

/-- Witness for amended C2 on a concrete run: num_sents = 0 on the
witness document and menu choice 7. -/
theorem C2_no_validation_amended_witness :
    (sumySummarize (specAlgos (fun _ => lsaRowsW) (fun _ _ => 1) (fun _ _ => 1))
        docW 0).map Prod.fst =
        ["Luhn", "LSA", "TextRank", "LexRank", "SumBasic", "KL"] ∧
      mainDispatch 7 = MainAction.printWrongChoice :=
  C2_no_validation_amended (specAlgos (fun _ => lsaRowsW) (fun _ _ => 1) (fun _ _ => 1))
    docW 0 7 (by decide)

/-! ### File-level helpers (source lines 110-245) -/

/-- Write one file into the filesystem. -/
def fsWrite (fs : FileSys) (name content : String) : FileSys :=
  fun n => if n = name then some content else fs n

/-- Model of Python `str.split(sep)` for a single-character separator:
split at every occurrence, keeping empty parts (`"".split(".") == ['']`). -/
def pySplitChar (sep : Char) : List Char → List (List Char)
  | [] => [[]]
  | c :: rest =>
    if c = sep then [] :: pySplitChar sep rest
    else
      match pySplitChar sep rest with
      | [] => [[c]]
      | part :: parts => (c :: part) :: parts

/-- Model of Python `re.sub(pat, repl, s)` for a single-character literal
pattern: replace every occurrence of the character by `repl`. -/
def pySubChar (pat : Char) (repl : List Char) : List Char → List Char
  | [] => []
  | c :: rest =>
    if c = pat then repl ++ pySubChar pat repl rest
    else c :: pySubChar pat repl rest

/-- Lowercase hexadecimal digit for values 0..15, as Python emits. -/
def hexDigit (n : Nat) : Char :=
  if n < 10 then Char.ofNat (48 + n) else Char.ofNat (87 + n)

/-- Four-digit hexadecimal payload of a `\uXXXX` escape. -/
def hex4 (n : Nat) : List Char :=
  [hexDigit (n / 4096 % 16), hexDigit (n / 256 % 16), hexDigit (n / 16 % 16),
    hexDigit (n % 16)]

/-- Model of Python `json.dumps` escaping of one character with the
default `ensure_ascii=True`: short escapes for the JSON control set,
`\uXXXX` (with surrogate pairs beyond the BMP) for everything outside
the printable ASCII range 0x20..0x7e. -/
def pyJsonEscapeChar (c : Char) : List Char :=
  if c = '\\' then ['\\', '\\']
  else if c = '"' then ['\\', '"']
  else if c.toNat = 10 then ['\\', 'n']
  else if c.toNat = 13 then ['\\', 'r']
  else if c.toNat = 9 then ['\\', 't']
  else if c.toNat = 8 then ['\\', 'b']
  else if c.toNat = 12 then ['\\', 'f']
  else if c.toNat < 32 ∨ c.toNat > 126 then
    if c.toNat < 65536 then '\\' :: 'u' :: hex4 c.toNat
    else
      ('\\' :: 'u' :: hex4 (55296 + (c.toNat - 65536) / 1024)) ++
        ('\\' :: 'u' :: hex4 (56320 + (c.toNat - 65536) % 1024))
  else [c]

/-- Model of Python `json.dumps` for a string value. -/
def pyJsonString (s : List Char) : List Char :=
  '"' :: (s.map pyJsonEscapeChar).flatten ++ ['"']

/-- Model of `json.dumps({'id': 707, 'text': text})`: Python serializes
the dict in insertion order with the default separators. -/
def pyJsonDumpsIdText (idVal : Int) (text : String) : String :=
  "\x7b\"id\": " ++ toString idVal ++ ", \"text\": " ++
    String.mk (pyJsonString text.data) ++ "\x7d"

/-- Embedding of `createJSON` (source lines 157-178): read the input file,
remove every double quote (`re.sub("\"", '', text)`), build the dict
`{'id': 707, 'text': text}`, write its JSON serialization to
`filename.split(".")[0] + ".json"`, and return that name.  A missing
input file is a failure (`open` raises). -/
def createJSON (fs : FileSys) (filename : String) :
    Option (FileSys × String) :=
  (fs filename).map (fun text =>
    let cleaned : String := String.mk (pySubChar '"' [] text.data)
    let jsonFile : String :=
      String.mk ((pySplitChar '.' filename.data).headD []) ++ ".json"
    (fsWrite fs jsonFile (pyJsonDumpsIdText 707 cleaned), jsonFile))

/-- The filesystem after `createJSON` (unchanged when the call fails). -/
def fsAfterCreateJSON (fs : FileSys) (filename : String) : FileSys :=
  match createJSON fs filename with
  | some (fs2, _) => fs2
  | none => fs

/-- The name returned by `createJSON` (empty when the call fails). -/
def createJSONName (fs : FileSys) (filename : String) : String :=
  match createJSON fs filename with
  | some (_, n) => n
  | none => ""

/-- `pySplitChar` never returns an empty list of parts. -/
theorem pySplitChar_ne_nil (sep : Char) (l : List Char) :
    pySplitChar sep l ≠ [] := by
  cases l with
  | nil => exact fun h => List.noConfusion h
  | cons c rest =>
    rw [pySplitChar]
    by_cases h : c = sep
    · rw [if_pos h]
      exact fun h2 => List.noConfusion h2
    · rw [if_neg h]
      cases pySplitChar sep rest with
      | nil => exact fun h2 => List.noConfusion h2
      | cons part parts => exact fun h2 => List.noConfusion h2

/-- The first part of a single-character split is the prefix before the
first occurrence of the separator. -/
theorem pySplitChar_headD (sep : Char) (l : List Char) :
    (pySplitChar sep l).headD [] = l.takeWhile (fun c => c ≠ sep) := by
  induction l with
  | nil => rfl
  | cons c rest ih =>
    rw [pySplitChar, List.takeWhile_cons]
    by_cases h : c = sep
    · rw [if_pos h]
      simp [h]
    · rw [if_neg h]
      have hne := pySplitChar_ne_nil sep rest
      cases hsp : pySplitChar sep rest with
      | nil => exact absurd hsp hne
      | cons part parts =>
        rw [hsp] at ih
        simp only [List.headD_cons] at ih
        simp [h, ih]

/-- Substituting a character by the empty replacement is exactly filtering
it out. -/
theorem pySubChar_nil_eq_filter (pat : Char) (l : List Char) :
    pySubChar pat [] l = l.filter (fun c => c ≠ pat) := by
  induction l with
  | nil => rfl
  | cons c rest ih =>
    rw [pySubChar, List.filter_cons]
    by_cases h : c = pat
    · simp [h, ih]
    · simp [h, ih]

/-- C9: for every file present on the filesystem, `createJSON` returns the
name obtained from the portion of the filename before the first '.' with
".json" appended, and writes under that name the JSON object with id 707
and text equal to the file contents with every double-quote character
removed. -/
theorem C9_createJSON_spec (fs : FileSys) (filename text : String)
    (h : fs filename = some text) :
    createJSONName fs filename =
        String.mk (filename.data.takeWhile (fun c => c ≠ '.')) ++ ".json" ∧
      fsAfterCreateJSON fs filename (createJSONName fs filename) =
        some (pyJsonDumpsIdText 707
          (String.mk (text.data.filter (fun c => c ≠ '"')))) := by
  unfold createJSONName fsAfterCreateJSON createJSON
  rw [h, Option.map_some']
  dsimp only
  constructor
  · rw [pySplitChar_headD]
  · rw [fsWrite]
    rw [if_pos rfl, pySubChar_nil_eq_filter]

/-- Concrete filesystem for the C9 witness. -/
def fs9W : FileSys := fun n => if n = "sample.txt" then some "say \"hi\"" else none

/-- Witness for C9 at a concrete filesystem: the derived name and the
serialized quote-free content. -/
theorem C9_createJSON_spec_witness :
    createJSONName fs9W "sample.txt" =
        String.mk ("sample.txt".data.takeWhile (fun c => c ≠ '.')) ++ ".json" ∧
      fsAfterCreateJSON fs9W "sample.txt" (createJSONName fs9W "sample.txt") =
        some (pyJsonDumpsIdText 707
          (String.mk (("say \"hi\"" : String).data.filter (fun c => c ≠ '"')))) :=
  C9_createJSON_spec fs9W "sample.txt" "say \"hi\"" rfl

/-- Embedding of `gensimSummarize` (source lines 110-126): read the file
and call the external `gensim.summarization.summarize(text, coverage)`,
taken as a function parameter; no file is written. -/
def gensimSummarize (gsum : String → ℚ → String) (fs : FileSys)
    (filename : String) (coverage : ℚ) : Option String :=
  (fs filename).map (fun text => gsum text coverage)

/-- Embedding of `pyteasSummarize` (source lines 129-154): read the file,
call the external `pyteaser.Summarize(title, text)` — taken as a function
parameter returning its ranked sentence list — and join the first
`num_sents` of its sentences with single spaces
(`" ".join([str(sentence) for sentence in summary[:num_sents]])`). -/
def pyteasSummarize (pySummarize : String → String → List String)
    (fs : FileSys) (filename title : String) (num_sents : Nat) :
    Option String :=
  (fs filename).map (fun text =>
    String.intercalate " " ((pySummarize title text).take num_sents))

/-- C10: for every input file, title and sentence count, `pyteasSummarize`
returns the single string obtained by joining the first `num_sents`
sentences of the underlying summarizer's output with single spaces: a
prefix truncation of the external ranking (not a selection by score), and
a plain string rather than a sequence of records. -/
theorem C10_pyteas_truncates_and_joins
    (pySummarize : String → String → List String) (fs : FileSys)
    (filename title text : String) (num_sents : Nat)
    (h : fs filename = some text) :
    pyteasSummarize pySummarize fs filename title num_sents =
        some (String.intercalate " "
          ((pySummarize title text).take num_sents)) ∧
      (pySummarize title text).take num_sents <+: pySummarize title text ∧
      ((pySummarize title text).take num_sents).length =
        min num_sents (pySummarize title text).length := by
  refine ⟨?_, List.take_prefix _ _, List.length_take _ _⟩
  unfold pyteasSummarize
  rw [h, Option.map_some']

/-- Concrete external summarizer for the C10 witness: returns the title
and the text as two "sentences". -/
def pyteasW : String → String → List String := fun title text => [title, text]

/-- Witness for C10 at a concrete filesystem and num_sents = 1. -/
theorem C10_pyteas_truncates_and_joins_witness :
    pyteasSummarize pyteasW fs9W "sample.txt" "Topic Modelling" 1 =
        some (String.intercalate " "
          ((pyteasW "Topic Modelling" "say \"hi\"").take 1)) ∧
      (pyteasW "Topic Modelling" "say \"hi\"").take 1 <+:
        pyteasW "Topic Modelling" "say \"hi\"" ∧
      ((pyteasW "Topic Modelling" "say \"hi\"").take 1).length =
        min 1 (pyteasW "Topic Modelling" "say \"hi\"").length :=
  C10_pyteas_truncates_and_joins pyteasW fs9W "sample.txt" "Topic Modelling"
    "say \"hi\"" 1 rfl

/-- The external pytextrank stage functions used by `pytrankSummarize`:
`stage1` builds the o1 content from the JSON document's content
(`parse_doc` over `json_iter`), `stage2` the o2 content from the o1
content (`text_rank` and `normalize_key_phrases`), `stage3` the o3
content from the o2 and o1 contents (`rank_kernel` and `top_sentences`),
and `finalText` the returned summary from the o2 and o3 contents
(`limit_keyphrases`, `limit_sentences`, `make_sentence`). -/
structure PytextrankStages where
  stage1 : String → String
  stage2 : String → String
  stage3 : String → String → String
  finalText : String → String → String

/-- Embedding of `pytrankSummarize` (source lines 193-245): convert the
input file via `createJSON`, then write the stage files "o1.json",
"o2.json", "o3.json" in order, and return the summary text assembled from
the stage outputs. -/
def pytrankSummarize (P : PytextrankStages) (fs : FileSys)
    (filename : String) : Option (FileSys × String) :=
  (createJSON fs filename).map (fun res =>
    let c0 : String := (res.1 res.2).getD ""
    let c1 : String := P.stage1 c0
    let fs2 : FileSys := fsWrite res.1 "o1.json" c1
    let c2 : String := P.stage2 c1
    let fs3 : FileSys := fsWrite fs2 "o2.json" c2
    let c3 : String := P.stage3 c2 c1
    let fs4 : FileSys := fsWrite fs3 "o3.json" c3
    (fs4, P.finalText c2 c3))

/-- The filesystem after a `pytrankSummarize` call (unchanged when the
call fails). -/
def fsAfterPytrank (P : PytextrankStages) (fs : FileSys)
    (filename : String) : FileSys :=
  match pytrankSummarize P fs filename with
  | some (fs2, _) => fs2
  | none => fs

/-- Concrete stage functions for the C8 counterexample and witness. -/
def stagesW : PytextrankStages :=
  ⟨fun a => a, fun a => a, fun a b => a ++ b, fun a b => a ++ b⟩

/-- Concrete filesystem containing only the input text file. -/
def fsPW : FileSys :=
  fun n => if n = "sample_text.txt" then some "hello" else none

/-- C8 counterexample: the summarization call `pytrankSummarize` does not
leave the environment unchanged: it creates the file "o1.json", which did
not exist before the call. -/
theorem C8_counterexample :
    fsAfterPytrank stagesW fsPW "sample_text.txt" "o1.json" ≠
      fsPW "o1.json" := by
  decide

/-- C8 (amended): the summarization calls are deterministic functions of
the input filesystem, but they are not filesystem-pure: `createJSON`
writes exactly the derived ".json" file, and `pytrankSummarize` writes
only the derived ".json" file and the three stage files "o1.json",
"o2.json" and "o3.json"; every other file is left untouched
(`sumySummarizeFile`, `gensimSummarize` and `pyteasSummarize` only read). -/
theorem C8_writes_only_derived_files_amended (P : PytextrankStages)
    (fs : FileSys) (filename name : String)
    (hjson : name ≠ createJSONName fs filename)
    (h1 : name ≠ "o1.json") (h2 : name ≠ "o2.json") (h3 : name ≠ "o3.json") :
    fsAfterCreateJSON fs filename name = fs name ∧
      fsAfterPytrank P fs filename name = fs name := by
  unfold fsAfterCreateJSON fsAfterPytrank pytrankSummarize createJSONName createJSON at *
  cases hfile : fs filename with
  | none =>
    simp only [Option.map_none']
    trivial
  | some text =>
    rw [hfile] at hjson
    simp only [Option.map_some'] at hjson ⊢
    constructor
    · rw [fsWrite, if_neg hjson]
    · rw [fsWrite, if_neg h3, fsWrite, if_neg h2, fsWrite, if_neg h1,
        fsWrite, if_neg hjson]

/-- Witness for amended C8: an unrelated file name is untouched by both
calls on the concrete filesystem. -/
theorem C8_writes_only_derived_files_amended_witness :
    fsAfterCreateJSON fsPW "sample_text.txt" "other.txt" =
        fsPW "other.txt" ∧
      fsAfterPytrank stagesW fsPW "sample_text.txt" "other.txt" =
        fsPW "other.txt" :=
  C8_writes_only_derived_files_amended stagesW fsPW "sample_text.txt"
    "other.txt" (by decide) (by decide) (by decide) (by decide)

end MailsSummariser
